import Mathlib

/-!
Verification of the grounded two-phase recommendation pipeline in `app.py`.

The Python source is shallowly embedded: Python strings are modelled as
`List Char` (`Str`), JSON values as the inductive `JVal`, Python dicts as
association lists with last-binding-wins lookup (Python's insert semantics
are lookup-equivalent to appending the new binding at the end), and code
that can raise is modelled in `Except PyErr`.  External collaborators (the
chat model endpoint and the RAWG catalog) are parameters: the model is an
oracle `Str → Str` from prompt to reply text, and the catalog is a pair of
functions for search and detail lookup.  `json.loads` is supplied as a
parameter `p : Str → Option JVal` wherever the source calls it; a concrete
executable JSON reader `jsonLoads` (covering objects, arrays, strings,
integers, booleans and null) instantiates it in concrete runs.
-/

/-- Python strings, modelled as lists of characters. -/
abbrev Str := List Char

/-- The exceptions relevant to the embedded code. -/
inductive PyErr where
  | valueError (msg : Str)
  | jsonDecodeError
  | typeError
  | attributeError
  | keyError
  | requestError
  deriving DecidableEq, Repr

/-- Whitespace for Python's `str.strip` (the ASCII whitespace characters). -/
def isPySpace (c : Char) : Bool :=
  c = ' ' || c = '\t' || c = '\n' || c = '\x0d' || c = '\x0b' || c = '\x0c'

/-- `s.lstrip()`: drop leading whitespace. -/
def stripLeft (s : Str) : Str := s.dropWhile isPySpace

/-- `s.rstrip()`: drop trailing whitespace. -/
def stripRight (s : Str) : Str := (s.reverse.dropWhile isPySpace).reverse

/-- Python `s.strip()`. -/
def pyStrip (s : Str) : Str := stripRight (stripLeft s)

/-- Python `s.lower()` (ASCII case folding; the strings compared by the
source are ASCII or caseless Korean). -/
def pyLower (s : Str) : Str := s.map Char.toLower

/-- Boolean prefix test on character lists. -/
def isPrefixB : Str → Str → Bool
  | [], _ => true
  | _ :: _, [] => false
  | x :: xs, y :: ys => x = y && isPrefixB xs ys

/-- Boolean substring test: Python's `a in b` for strings. -/
def isInfixB (a : Str) : Str → Bool
  | [] => a.isEmpty
  | c :: rest => isPrefixB a (c :: rest) || isInfixB a rest

/-- `", ".join`-style joining of string pieces with a separator. -/
def joinWith (sep : Str) (parts : List Str) : Str :=
  List.intercalate sep parts

/-- Decimal digits of a natural number (fuel-based, kernel-reducible). -/
def natDigitsGo : Nat → Nat → Str
  | 0, _ => []
  | fuel + 1, n =>
    if n < 10 then [Char.ofNat (48 + n)]
    else natDigitsGo fuel (n / 10) ++ [Char.ofNat (48 + n % 10)]

/-- Decimal rendering of a natural number. -/
def natToStr (n : Nat) : Str := natDigitsGo (n + 1) n

/-- Decimal rendering of an integer, as Python `str(int)`. -/
def intToStr (n : Int) : Str :=
  if n < 0 then '-' :: natToStr (-n).toNat else natToStr n.toNat

/-- Digits-only parse helper for `int(str)`. -/
def digitsVal : Str → Option Nat
  | [] => none
  | ds => ds.foldl (fun acc c =>
      match acc with
      | none => none
      | some v => if c.isDigit then some (v * 10 + (c.toNat - 48)) else none)
      (some 0)

/-- Python `int(s)` on a string: optional surrounding whitespace, optional
sign, one or more ASCII digits (the only shapes the pipeline meets). -/
def parseIntStr (s : Str) : Option Int :=
  let t := pyStrip s
  match t with
  | '-' :: ds => (digitsVal ds).map (fun v => -(v : Int))
  | '+' :: ds => (digitsVal ds).map (fun v => (v : Int))
  | ds => (digitsVal ds).map (fun v => (v : Int))

/-- JSON values as returned by `json.loads` (floats are not produced by any
input the claims exercise and are omitted). -/
inductive JVal where
  | jnull
  | jbool (b : Bool)
  | jint (n : Int)
  | jstr (s : Str)
  | jlist (xs : List JVal)
  | jobj (fields : List (Str × JVal))

/-- A Python dict holding JSON data: association list, where a later binding
for the same key shadows an earlier one (lookup-equivalent to Python's
in-place update). -/
abbrev Dict := List (Str × JVal)

/-- Dict lookup, last binding wins. -/
def dictGet : Dict → Str → Option JVal
  | [], _ => none
  | kv :: rest, k =>
    match dictGet rest k with
    | some v => some v
    | none => if kv.1 = k then some kv.2 else none

/-- Python truthiness of a JSON value. -/
def jTruthy : JVal → Bool
  | .jnull => false
  | .jbool b => b
  | .jint n => n ≠ 0
  | .jstr s => !s.isEmpty
  | .jlist xs => !xs.isEmpty
  | .jobj fs => !fs.isEmpty

/-- Python `int(x)` on a JSON value: ints pass through, bools are 0/1,
numeric strings are parsed, everything else raises. -/
def pyInt : JVal → Except PyErr Int
  | .jint n => .ok n
  | .jbool b => .ok (if b then 1 else 0)
  | .jstr s =>
    match parseIntStr s with
    | some n => .ok n
    | none => .error (.valueError [])
  | .jnull => .error .typeError
  | .jlist _ => .error .typeError
  | .jobj _ => .error .typeError

/-- Extract an integer from a `JVal` without raising (used to state identity
properties of resolved facts). -/
def jIntOf : JVal → Option Int
  | .jint n => some n
  | _ => none

/-- Python `==` between a JSON value used as a dict key and an int (bools
compare equal to 0/1 in Python). -/
def pyEqInt : JVal → Int → Bool
  | .jint n, m => n = m
  | .jbool b, m => (if b then (1 : Int) else 0) = m
  | _, _ => false

/-- Python `obj.get(k)`: `AttributeError` unless `obj` is a dict. -/
def pyGet (v : JVal) (k : Str) : Except PyErr (Option JVal) :=
  match v with
  | .jobj d => .ok (dictGet d k)
  | _ => .error .attributeError

/-- Python `obj.get(k, default)`. -/
def pyGetD (v : JVal) (k : Str) (dflt : JVal) : Except PyErr JVal :=
  match v with
  | .jobj d => .ok ((dictGet d k).getD dflt)
  | _ => .error .attributeError

/-- Total `obj.get(k)` with `None` for missing keys, `None` on non-dicts
(only applied where the receiver is known to be a dict). -/
def jGetD (v : JVal) (k : Str) : JVal :=
  match v with
  | .jobj d => (dictGet d k).getD .jnull
  | _ => .jnull

/-- Python `obj.get(k) or alt`: the field if present and truthy, else `alt`. -/
def jGetTruthyOr (v : JVal) (k : Str) (alt : JVal) : JVal :=
  let x := jGetD v k
  if jTruthy x then x else alt

/-- Python `d[k] = x` on a JSON object (append; later bindings win lookups). -/
def dictSet (v : JVal) (k : Str) (x : JVal) : JVal :=
  match v with
  | .jobj d => .jobj (d ++ [(k, x)])
  | other => other

/-! ## Python `str()` of JSON values (used by the candidate cleaner) -/

mutual

/-- Python `repr` of a JSON value (scalars and containers as Python prints
them; string escaping inside containers is not needed by any claim). -/
def pyRepr : JVal → Str
  | .jnull => "None".toList
  | .jbool true => "True".toList
  | .jbool false => "False".toList
  | .jint n => intToStr n
  | .jstr s => '\x27' :: s ++ ['\x27']
  | .jlist xs => '[' :: joinWith (", ".toList) (pyReprArr xs) ++ [']']
  | .jobj fs => Char.ofNat 123 :: joinWith (", ".toList) (pyReprObj fs) ++ [Char.ofNat 125]

def pyReprArr : List JVal → List Str
  | [] => []
  | x :: xs => pyRepr x :: pyReprArr xs

def pyReprObj : List (Str × JVal) → List Str
  | [] => []
  | (k, v) :: fs => ('\x27' :: k ++ ['\x27'] ++ ": ".toList ++ pyRepr v) :: pyReprObj fs

end

/-- Python `str(x)` on a JSON value. -/
def pyStr : JVal → Str
  | .jstr s => s
  | v => pyRepr v

/-! ## A concrete JSON reader standing in for `json.loads` in concrete runs -/

/-- JSON string body: consume until the closing quote, with the basic
escapes. Returns the decoded text and the remainder after the quote. -/
def jsonStrGo : Nat → Str → Option (Str × Str)
  | 0, _ => none
  | _, '"' :: rest => some ([], rest)
  | fuel + 1, '\\' :: e :: rest =>
    match e with
    | '"' => (jsonStrGo fuel rest).map (fun p => ('"' :: p.1, p.2))
    | '\\' => (jsonStrGo fuel rest).map (fun p => ('\\' :: p.1, p.2))
    | 'n' => (jsonStrGo fuel rest).map (fun p => ('\n' :: p.1, p.2))
    | 't' => (jsonStrGo fuel rest).map (fun p => ('\t' :: p.1, p.2))
    | '/' => (jsonStrGo fuel rest).map (fun p => ('/' :: p.1, p.2))
    | _ => none
  | fuel + 1, c :: rest => (jsonStrGo fuel rest).map (fun p => (c :: p.1, p.2))
  | _, [] => none

/-- Skip JSON whitespace. -/
def jsonWs (s : Str) : Str :=
  s.dropWhile (fun c => c = ' ' || c = '\n' || c = '\t' || c = '\x0d')

mutual

def jsonVal : Nat → Str → Option (JVal × Str)
  | 0, _ => none
  | fuel + 1, s =>
    match jsonWs s with
    | 'n' :: 'u' :: 'l' :: 'l' :: r => some (.jnull, r)
    | 't' :: 'r' :: 'u' :: 'e' :: r => some (.jbool true, r)
    | 'f' :: 'a' :: 'l' :: 's' :: 'e' :: r => some (.jbool false, r)
    | '"' :: r => (jsonStrGo (r.length + 1) r).map (fun p => (.jstr p.1, p.2))
    | '[' :: r =>
      (match jsonWs r with
       | ']' :: r2 => some (.jlist [], r2)
       | r1 => (jsonArr fuel r1).map (fun p => (.jlist p.1, p.2)))
    | c :: r =>
      if c = Char.ofNat 123 then
        (match jsonWs r with
         | r1 =>
           if r1.head? = some (Char.ofNat 125) then some (.jobj [], r1.tail)
           else (jsonObj fuel r1).map (fun p => (.jobj p.1, p.2)))
      else if c = '-' then
        (match (jsonWs r).span Char.isDigit with
         | (ds, rest) => (digitsVal ds).map (fun v => (.jint (-(v : Int)), rest)))
      else if c.isDigit then
        (match (c :: r).span Char.isDigit with
         | (ds, rest) => (digitsVal ds).map (fun v => (.jint (v : Int), rest)))
      else none
    | [] => none

def jsonArr : Nat → Str → Option (List JVal × Str)
  | 0, _ => none
  | fuel + 1, s => do
    let (v, r) ← jsonVal fuel s
    match jsonWs r with
    | ',' :: r2 => (jsonArr fuel r2).map (fun p => (v :: p.1, p.2))
    | ']' :: r2 => some ([v], r2)
    | _ => none

def jsonObj : Nat → Str → Option (List (Str × JVal) × Str)
  | 0, _ => none
  | fuel + 1, s =>
    match jsonWs s with
    | '"' :: r => do
      let (k, r1) ← jsonStrGo (r.length + 1) r
      match jsonWs r1 with
      | ':' :: r2 => do
        let (v, r3) ← jsonVal fuel r2
        match jsonWs r3 with
        | ',' :: r4 => (jsonObj fuel r4).map (fun p => ((k, v) :: p.1, p.2))
        | c :: r4 => if c = Char.ofNat 125 then some ([(k, v)], r4) else none
        | [] => none
      | _ => none
    | _ => none

end

/-- A concrete `json.loads`: `some` exactly when the whole input is one JSON
value (with trailing whitespace). -/
def jsonLoads (s : Str) : Option JVal :=
  match jsonVal (2 * s.length + 4) s with
  | some (v, rest) => if jsonWs rest = [] then some v else none
  | none => none

/-! ## `safe_json_loads` (app.py lines 221-232) -/

/-- The three-backtick fence marker. -/
def fence3 : Str := "```".toList

/-- `re.sub(r"^```[a-zA-Z]*\n?", "", s)`: drop a leading fence, its language
tag and at most one following newline. -/
def stripFenceHead (s : Str) : Str :=
  if isPrefixB fence3 s then
    let r := (s.drop 3).dropWhile (fun c => c.isAlpha && c.toNat < 128)
    match r with
    | '\n' :: r2 => r2
    | _ => r
  else s

/-- `re.sub(r"\n?```$", "", s)`: drop a trailing fence and at most one
newline just before it. -/
def stripFenceTail (s : Str) : Str :=
  let rev := s.reverse
  if isPrefixB fence3 rev then
    let r := rev.drop 3
    (match r with
     | '\n' :: r2 => r2
     | _ => r).reverse
  else s

/-- The preprocessing `safe_json_loads` performs before parsing: strip, then
if the text starts with a code fence, remove the fences (re-stripping after
each removal, as the source does). -/
def sjPreprocess (s : Str) : Str :=
  let s1 := pyStrip s
  if isPrefixB fence3 s1 then pyStrip (stripFenceTail (pyStrip (stripFenceHead s1)))
  else s1

/-- `s[s.find("{") : s.rfind("}") + 1].strip()`: the stripped slice from the
first opening brace to the last closing brace. -/
def braceSlice (s : Str) : Str :=
  let a := s.findIdx (fun c => c = Char.ofNat 123)
  let b := s.length - 1 - (s.reverse.findIdx (fun c => c = Char.ofNat 125))
  pyStrip ((s.drop a).take (b + 1 - a))

/-- The parsing step of `safe_json_loads` after preprocessing: if both
braces occur, try the brace slice first, then the whole string. -/
def sjCore (p : Str → Option JVal) (s : Str) : Option JVal :=
  if (Char.ofNat 123) ∈ s ∧ (Char.ofNat 125) ∈ s then
    match p (braceSlice s) with
    | some j => some j
    | none => p s
  else p s

/-- `safe_json_loads(s)` with the JSON parser supplied as a parameter. -/
def safe_json_loads (p : Str → Option JVal) (s : Str) : Option JVal :=
  sjCore p (sjPreprocess s)

/-! ## Platform matcher (app.py lines 240-258) -/

/-- `map_platform_choice_to_rawg_tokens`: the static label-to-token table. -/
def map_platform_choice_to_rawg_tokens (choice : Str) : List Str :=
  if choice = "PC".toList then ["PC".toList]
  else if choice = "PS".toList then ["PlayStation".toList]
  else if choice = "Xbox".toList then ["Xbox".toList]
  else if choice = "Switch".toList then ["Nintendo Switch".toList, "Nintendo".toList]
  else if choice = "모바일".toList then ["Android".toList, "iOS".toList]
  else []

/-- `platform_filter_pass(user_platforms, game_plats)`. -/
def platform_filter_pass (user_platforms game_plats : List Str) : Bool :=
  if user_platforms.isEmpty then true
  else
    let tokens := user_platforms.foldl
      (fun acc up => acc ++ map_platform_choice_to_rawg_tokens up) []
    let gp := pyLower (joinWith (" | ".toList) game_plats)
    tokens.any (fun t => isInfixB (pyLower t) gp)

/-! ## Catalog helpers (app.py lines 264-316) -/

/-- The RAWG catalog as seen by the pipeline: keyed search (the JSON body of
`/games?search=...`) and detail lookup (the JSON body of `/games/{id}`);
either call can fail (missing key, HTTP error, timeout). The `st.cache_data`
memoization makes both deterministic within a run, which pure functions
model directly. -/
structure Catalog where
  search : Str → Except PyErr JVal
  detail : Int → Except PyErr JVal

/-- `rawg_search_top`: the first entry of `data["results"]`, or `None`. -/
def rawg_search_top (cat : Catalog) (query : Str) : Except PyErr (Option JVal) := do
  let data ← cat.search query
  let rs ← pyGet data ("results".toList)
  let results := match rs with
    | some v => if jTruthy v then v else .jlist []
    | none => .jlist []
  if jTruthy results then
    match results with
    | .jlist (x :: _) => .ok (some x)
    | .jstr (c :: _) => .ok (some (.jstr [c]))
    | .jobj _ => .error .keyError
    | _ => .error .typeError
  else
    .ok none

/-- Collect the truthy `platform.name` entries of a `platforms` list; a
non-dict element or a truthy non-string name raises (in the source the
latter would surface slightly later, as a join/render failure). -/
def gpGo : List JVal → Except PyErr (List Str)
  | [] => .ok []
  | p :: rest => do
    let inner ← match p with
      | .jobj pf =>
        .ok (match dictGet pf ("platform".toList) with
             | some v => if jTruthy v then v else .jobj []
             | none => .jobj [])
      | _ => .error .attributeError
    let namev ← pyGet inner ("name".toList)
    let tail ← gpGo rest
    match namev with
    | some v =>
      if jTruthy v then
        match v with
        | .jstr s => .ok (s :: tail)
        | _ => .error .typeError
      else .ok tail
    | none => .ok tail

/-- Order-preserving dedup on strings (the `seen` loop of `game_platforms`). -/
def dedupStr (seen : List Str) : List Str → List Str
  | [] => []
  | x :: xs => if x ∈ seen then dedupStr seen xs else x :: dedupStr (x :: seen) xs

/-- `game_platforms(detail)`. -/
def game_platforms (detail : JVal) : Except PyErr (List Str) :=
  match detail with
  | .jobj df => do
    let pv := match dictGet df ("platforms".toList) with
      | some v => if jTruthy v then v else .jlist []
      | none => .jlist []
    match pv with
    | .jlist xs => do
      let out ← gpGo xs
      .ok (dedupStr [] out)
    | _ => .error .typeError
  | _ => .error .attributeError

/-- Collect the truthy `name` entries of a `genres` list. -/
def ggGo : List JVal → Except PyErr (List Str)
  | [] => .ok []
  | g :: rest => do
    let namev ← pyGet g ("name".toList)
    let tail ← ggGo rest
    match namev with
    | some v =>
      if jTruthy v then
        match v with
        | .jstr s => .ok (s :: tail)
        | _ => .error .typeError
      else .ok tail
    | none => .ok tail

/-- `game_genres(detail)`. -/
def game_genres (detail : JVal) : Except PyErr (List Str) :=
  match detail with
  | .jobj df =>
    match dictGet df ("genres".toList) with
    | some v =>
      if jTruthy v then
        match v with
        | .jlist xs => ggGo xs
        | _ => .error .typeError
      else .ok []
    | none => .ok []
  | _ => .error .attributeError

/-! ## Configuration constants (app.py lines 25-29) -/

def CANDIDATE_COUNT : Nat := 18
def RAWG_MATCH_LIMIT : Nat := 18
def FALLBACK_MAX_RECS : Nat := 8

/-! ## Dict keys used by the pipeline -/

def idKey : Str := "id".toList
def kName : Str := "name".toList
def kReleased : Str := "released".toList
def kGenres : Str := "genres".toList
def kPlatforms : Str := "platforms".toList
def kMetacritic : Str := "metacritic".toList
def kRating : Str := "rating".toList
def kBgImage : Str := "background_image".toList
def kCandidates : Str := "candidates".toList
def kSelected : Str := "selected".toList
def kSummary : Str := "summary".toList
def kPriceDisc : Str := "price_disclaimer".toList

/-! ## Candidate generator (app.py lines 348-384) -/

/-- Case-insensitive order-preserving dedup (`seen` holds lowered keys). -/
def dedupCI (seen : List Str) : List Str → List Str
  | [] => []
  | t :: ts =>
    let key := pyLower t
    if key ∈ seen then dedupCI seen ts else t :: dedupCI (key :: seen) ts

/-- The `ValueError` message of a failed candidate generation. -/
def candErrMsg : Str := "후보 게임명 생성(JSON) 실패 또는 개수 불일치".toList

/-- `openai_get_candidates`, applied to the model's reply text: parse,
check `candidates` is a list of length `n`, then clean, dedup
case-insensitively and truncate to `n`. -/
def openai_get_candidates (p : Str → Option JVal) (reply : Str) (n : Nat) :
    Except PyErr (List Str) :=
  match safe_json_loads p reply with
  | none => .error .jsonDecodeError
  | some obj =>
    match pyGetD obj kCandidates (.jlist []) with
    | .error e => .error e
    | .ok cands =>
      match cands with
      | .jlist xs =>
        if xs.length ≠ n then .error (.valueError candErrMsg)
        else
          let cleaned := (xs.map (fun x => pyStrip (pyStr x))).filter (fun t => !t.isEmpty)
          .ok ((dedupCI [] cleaned).take n)
      | _ => .error (.valueError candErrMsg)

/-! ## Grounded selector (app.py lines 387-470) -/

/-- Body of the repair prompt of `openai_select_from_facts`, between the
leading newline of the f-string and the interpolated malformed text. -/
def selFixBody : Str :=
  ("아래 출력은 JSON 파싱에 실패했거나 조건을 어겼다.\n반드시 \"유효한 JSON\" 하나만 출력해서 수정해라. 다른 텍스트는 절대 출력하지 마라.\n조건: selected의 id는 팩트 목록의 id만 사용.\n\n[잘못된 출력]\n").toList

/-- The repair prompt: the f-string around the malformed text, stripped. -/
def selFixPrompt (text : Str) : Str :=
  pyStrip ('\n' :: selFixBody ++ text ++ ['\n'])

/-- The `ValueError` message of a malformed selection structure. -/
def selErrMsg : Str := "선정 결과 JSON 형식이 올바르지 않습니다.".toList

/-- The post-parse validation of the selection reply: `selected` must be a
list (the parsed object is returned whole). -/
def validateSelected (obj : JVal) : Except PyErr JVal :=
  match pyGetD obj kSelected (.jlist []) with
  | .error e => .error e
  | .ok sel =>
    match sel with
    | .jlist _ => .ok obj
    | _ => .error (.valueError selErrMsg)

/-- `openai_select_from_facts`, from the selection prompt: first model call,
parse; on parse failure exactly one repair call whose prompt embeds the
malformed reply; a second parse failure propagates. Returns the outcome and
the list of prompts sent. -/
def openai_select_from_facts (p : Str → Option JVal) (oracle : Str → Str)
    (prompt0 : Str) : Except PyErr JVal × List Str :=
  let text := pyStrip (oracle prompt0)
  match safe_json_loads p text with
  | some obj => (validateSelected obj, [prompt0])
  | none =>
    let fp := selFixPrompt text
    match safe_json_loads p (oracle fp) with
    | some obj => (validateSelected obj, [prompt0, fp])
    | none => (.error .jsonDecodeError, [prompt0, fp])

/-! ## Fallback selector (app.py lines 473-543) -/

/-- Leading body of the fallback repair prompt, before the interpolated
`max_recs`. -/
def fbFixBodyA : Str :=
  ("아래 출력은 JSON 파싱에 실패했거나 조건을 어겼다.\n반드시 \"유효한 JSON\" 하나만 출력해서 수정해라. 다른 텍스트 금지.\n조건: selected는 0~").toList

/-- Tail of the fallback repair prompt, after `max_recs` and before the
malformed text. -/
def fbFixBodyB : Str := ("개.\n\n[잘못된 출력]\n").toList

/-- The fallback repair prompt. -/
def fbFixPrompt (text : Str) (max_recs : Nat) : Str :=
  pyStrip ('\n' :: fbFixBodyA ++ natToStr max_recs ++ fbFixBodyB ++ text ++ ['\n'])

/-- The `ValueError` message of a malformed fallback structure. -/
def fbErrMsg : Str := "추천 결과 JSON 형식이 올바르지 않습니다.".toList

/-- Validation and truncation of the fallback reply: `selected` must be a
list; it is truncated to `max_recs` and written back into the object. -/
def fbFinish (obj : JVal) (max_recs : Nat) : Except PyErr JVal :=
  match pyGetD obj kSelected (.jlist []) with
  | .error e => .error e
  | .ok sel =>
    match sel with
    | .jlist xs => .ok (dictSet obj kSelected (.jlist (xs.take max_recs)))
    | _ => .error (.valueError fbErrMsg)

/-- `openai_select_fallback_no_rawg`, from the fallback prompt (same
one-shot-plus-one-repair discipline as the grounded selector). -/
def openai_select_fallback_no_rawg (p : Str → Option JVal) (oracle : Str → Str)
    (prompt0 : Str) (max_recs : Nat) : Except PyErr JVal × List Str :=
  let text := pyStrip (oracle prompt0)
  match safe_json_loads p text with
  | some obj => (fbFinish obj max_recs, [prompt0])
  | none =>
    let fp := fbFixPrompt text max_recs
    match safe_json_loads p (oracle fp) with
    | some obj => (fbFinish obj max_recs, [prompt0, fp])
    | none => (.error .jsonDecodeError, [prompt0, fp])

/-! ## Fact resolver (app.py lines 698-737) -/

/-- The fact dict appended for a resolved candidate (the literal of
app.py lines 718-729). -/
def mkFact (gid : Int) (detail top : JVal) (title : Str)
    (plats genres : List Str) : Dict :=
  [ (idKey, .jint gid),
    (kName, jGetTruthyOr detail kName (jGetTruthyOr top kName (.jstr title))),
    (kReleased, jGetD detail kReleased),
    (kGenres, .jlist (genres.map .jstr)),
    (kPlatforms, .jlist (plats.map .jstr)),
    (kMetacritic, jGetD detail kMetacritic),
    (kRating, jGetD detail kRating),
    (kBgImage, jGetD detail kBgImage) ]

/-- Per-candidate search phase: top hit, truthiness checks on the hit and
its `id`, and `int(top["id"])`. `none` means the candidate is skipped. -/
def candIdOf (cat : Catalog) (title : Str) : Except PyErr (Option (Int × JVal)) :=
  match rawg_search_top cat title with
  | .error e => .error e
  | .ok none => .ok none
  | .ok (some top) =>
    if !jTruthy top then .ok none
    else
      match pyGet top idKey with
      | .error e => .error e
      | .ok none => .ok none
      | .ok (some v) =>
        if !jTruthy v then .ok none
        else
          match pyInt v with
          | .error e => .error e
          | .ok gid => .ok (some (gid, top))

/-- Per-candidate detail phase: detail fetch, platform extraction, platform
filter, genre extraction, fact construction. `none` means a platform
mismatch (the candidate is skipped). -/
def candDetail (cat : Catalog) (uplats : List Str) (gid : Int) (top : JVal)
    (title : Str) : Except PyErr (Option Dict) :=
  match cat.detail gid with
  | .error e => .error e
  | .ok detail =>
    match game_platforms detail with
    | .error e => .error e
    | .ok plats =>
      if !platform_filter_pass uplats plats then .ok none
      else
        match game_genres detail with
        | .error e => .error e
        | .ok genres => .ok (some (mkFact gid detail top title plats genres))

/-- The fact-resolution loop: candidates in order, skipping search misses,
falsy hits, duplicate catalog ids (before the detail fetch, as the source
does) and platform mismatches; a resolved fact is appended and the loop
breaks once `M` facts are collected. The second component records the
candidates for which a catalog search was issued. -/
def resolveGo (cat : Catalog) (uplats : List Str) (M : Nat) :
    List Str → List Dict → List Int → List Str → Except PyErr (List Dict × List Str)
  | [], factual, _, queried => .ok (factual, queried)
  | title :: rest, factual, seen, queried =>
    match candIdOf cat title with
    | .error e => .error e
    | .ok none => resolveGo cat uplats M rest factual seen (queried ++ [title])
    | .ok (some (gid, top)) =>
      if gid ∈ seen then resolveGo cat uplats M rest factual seen (queried ++ [title])
      else
        match candDetail cat uplats gid top title with
        | .error e => .error e
        | .ok none => resolveGo cat uplats M rest factual seen (queried ++ [title])
        | .ok (some fact) =>
          let factual2 := factual ++ [fact]
          if M ≤ factual2.length then .ok (factual2, queried ++ [title])
          else resolveGo cat uplats M rest factual2 (gid :: seen) (queried ++ [title])

/-- The fact resolver as the pipeline runs it (ceiling `RAWG_MATCH_LIMIT`). -/
def resolveFacts (cat : Catalog) (uplats : List Str) (cands : List Str) :
    Except PyErr (List Dict × List Str) :=
  resolveGo cat uplats RAWG_MATCH_LIMIT cands [] [] []

/-- The result a candidate would contribute ignoring dedup and the ceiling:
its catalog id and fact when it fully resolves, `none` otherwise. -/
def candFact? (cat : Catalog) (uplats : List Str) (title : Str) : Option (Int × Dict) :=
  match candIdOf cat title with
  | .ok (some (gid, top)) =>
    match candDetail cat uplats gid top title with
    | .ok (some fact) => some (gid, fact)
    | _ => none
  | _ => none

/-- First-occurrence-wins dedup by catalog id, also dropping ids in `seen`. -/
def dedupFst (seen : List Int) : List (Int × Dict) → List (Int × Dict)
  | [] => []
  | pr :: rest =>
    if pr.1 ∈ seen then dedupFst seen rest
    else pr :: dedupFst (pr.1 :: seen) rest

/-! ## Grounded merge (app.py lines 748-764) -/

/-- `gid = int(s.get("id"))` on a selected entry (`int(None)` raises). -/
def selIdOf (s : JVal) : Except PyErr Int :=
  match pyGet s idKey with
  | .error e => .error e
  | .ok none => .error .typeError
  | .ok (some v) => pyInt v

/-- `fact_map = {g["id"]: g for g in factual}` as key/fact pairs; raises
`KeyError` if a fact lacks `"id"`. -/
def factKeys : List Dict → Except PyErr (List (JVal × Dict))
  | [] => .ok []
  | g :: rest =>
    match dictGet g idKey with
    | none => .error .keyError
    | some v =>
      match factKeys rest with
      | .error e => .error e
      | .ok tail => .ok ((v, g) :: tail)

/-- `fact_map[gid]`: the fact whose key equals `gid` under Python `==`
(later facts shadow earlier ones with an equal key, as dict building does). -/
def lookupFM (fm : List (JVal × Dict)) (gid : Int) : Option Dict :=
  (fm.reverse.find? (fun kv => pyEqInt kv.1 gid)).map (fun kv => kv.2)

/-- The merge loop over `picked_obj["selected"]`: compute the id (skipping
on any exception), skip ids absent from the fact map, otherwise append
`{**fact_map[gid], **s}`. -/
def mergeGo (fm : List (JVal × Dict)) : List JVal → Except PyErr (List Dict)
  | [] => .ok []
  | s :: rest =>
    match selIdOf s with
    | .error _ => mergeGo fm rest
    | .ok gid =>
      match lookupFM fm gid with
      | none => mergeGo fm rest
      | some f =>
        match s with
        | .jobj d =>
          (match mergeGo fm rest with
           | .error e => .error e
           | .ok tail => .ok ((f ++ d) :: tail))
        | _ => .error .typeError

/-- What one selected entry contributes to the merged list. -/
def mergeSpecStep (fm : List (JVal × Dict)) (s : JVal) : Option Dict :=
  match selIdOf s with
  | .error _ => none
  | .ok gid =>
    match lookupFM fm gid, s with
    | some f, .jobj d => some (f ++ d)
    | _, _ => none

/-- The whole merge stage: build `fact_map`, then run the merge loop. -/
def groundedMergeE (factual : List Dict) (sel : List JVal) : Except PyErr (List Dict) :=
  match factKeys factual with
  | .error e => .error e
  | .ok fm => mergeGo fm sel

/-! ## Grounded orchestrator branch (app.py lines 688-764) -/

/-- One model invocation of the grounded branch, tagged by stage. -/
inductive StageCall where
  | candCall (prompt : Str)
  | selCall (prompt : Str)

/-- The terminal output of one grounded invocation. -/
structure PipelineResult where
  selected : List Dict
  summary : JVal
  note : JVal

/-- The `ValueError` message raised when zero facts resolve. -/
def noMatchMsg : Str :=
  ("RAWG에서 매칭되는 게임을 찾지 못했습니다. 플랫폼 선택을 완화하거나, \x27재미있게 플레이한 게임\x27에 힌트를 더 넣어봐.").toList

/-- The merge and result assembly after a validated selection reply. -/
def buildResult (factual : List Dict) (obj : JVal) : Except PyErr PipelineResult :=
  match factKeys factual with
  | .error e => .error e
  | .ok fm =>
    match pyGetD obj kSelected (.jlist []) with
    | .error e => .error e
    | .ok sel =>
      match sel with
      | .jlist xs =>
        (match mergeGo fm xs with
         | .error e => .error e
         | .ok merged =>
           match pyGetD obj kSummary (.jstr []) with
           | .error e => .error e
           | .ok summ =>
             match pyGetD obj kPriceDisc (.jstr []) with
             | .error e => .error e
             | .ok disc => .ok { selected := merged, summary := summ, note := disc })
      | _ => .error .typeError

/-- The grounded pipeline: candidates, fact resolution, the empty-fact-set
guard, selection, merge. The prompt of the candidate stage and the
construction of the selection prompt from the fact list are parameters (the
source builds them from the profile text); the second component records
every model call made, tagged by stage. -/
def runGrounded (p : Str → Option JVal) (oracle : Str → Str) (cat : Catalog)
    (uplats : List Str) (candPrompt : Str) (mkSelPrompt : List Dict → Str) :
    Except PyErr PipelineResult × List StageCall :=
  match openai_get_candidates p (oracle candPrompt) CANDIDATE_COUNT with
  | .error e => (.error e, [.candCall candPrompt])
  | .ok candidates =>
    match resolveFacts cat uplats candidates with
    | .error e => (.error e, [.candCall candPrompt])
    | .ok (factual, _) =>
      if factual.isEmpty then
        (.error (.valueError noMatchMsg), [.candCall candPrompt])
      else
        let sp := mkSelPrompt factual
        let step := openai_select_from_facts p oracle sp
        ((match step.1 with
          | .error e => .error e
          | .ok obj => buildResult factual obj),
         .candCall candPrompt :: step.2.map .selCall)

/-! ## Helper lemmas: stripping -/

theorem dropWhile_fix_head {p : Char → Bool} {c : Char} {t : Str}
    (h : List.dropWhile p (c :: t) = c :: t) : p c = false := by
  by_contra hc
  have hc2 : p c = true := by
    cases hpc : p c with
    | false => exact absurd hpc hc
    | true => rfl
  rw [List.dropWhile_cons, if_pos hc2] at h
  have hlen := congrArg List.length h
  have hle := (List.dropWhile_suffix (l := t) p).length_le
  simp at hlen
  omega

theorem dropWhile_fix_of_prefix {p : Char → Bool} {x y : Str}
    (hx : List.dropWhile p x = x) (hp : y <+: x) : List.dropWhile p y = y := by
  cases y with
  | nil => simp
  | cons c t =>
    cases x with
    | nil => simp at hp
    | cons c' t' =>
      obtain ⟨hh, -⟩ := List.cons_prefix_cons.mp hp
      have := dropWhile_fix_head hx
      rw [List.dropWhile_cons, hh, this]
      simp

theorem stripLeft_isSuffix (s : Str) : stripLeft s <:+ s :=
  List.dropWhile_suffix isPySpace

theorem stripRight_isPrefix (s : Str) : stripRight s <+: s := by
  have h := List.dropWhile_suffix (l := s.reverse) isPySpace
  have := List.reverse_prefix.mpr h
  simpa [stripRight] using this

theorem stripLeft_eq_of_pyStrip {s : Str} (h : pyStrip s = s) : stripLeft s = s := by
  have h1 : stripLeft s <:+ s := stripLeft_isSuffix s
  have h2 : stripRight (stripLeft s) <+: stripLeft s := stripRight_isPrefix _
  have hl1 := h1.length_le
  have hl2 := h2.length_le
  have hh : (stripRight (stripLeft s)).length = s.length := by rw [show stripRight (stripLeft s) = s from h]
  exact h1.eq_of_length (by omega)

theorem stripRight_eq_of_pyStrip {s : Str} (h : pyStrip s = s) : stripRight s = s := by
  have h0 := stripLeft_eq_of_pyStrip h
  have : pyStrip s = stripRight s := by rw [pyStrip, h0]
  rw [← this, h]

theorem dropWhile_rev_eq_of_stripRight {s : Str} (h : stripRight s = s) :
    List.dropWhile isPySpace s.reverse = s.reverse := by
  have := congrArg List.reverse h
  simpa [stripRight] using this

theorem dropWhile_idem (p : Char → Bool) (l : Str) :
    List.dropWhile p (List.dropWhile p l) = List.dropWhile p l := by
  induction l with
  | nil => simp
  | cons c t ih =>
    by_cases h : p c = true
    · simp [List.dropWhile_cons, h, ih]
    · simp [List.dropWhile_cons, h]

theorem stripLeft_idem (s : Str) : stripLeft (stripLeft s) = stripLeft s :=
  dropWhile_idem isPySpace s

theorem pyStrip_idem (s : Str) : pyStrip (pyStrip s) = pyStrip s := by
  have hpre : stripRight (stripLeft s) <+: stripLeft s := stripRight_isPrefix _
  have hfix : List.dropWhile isPySpace (stripLeft s) = stripLeft s := dropWhile_idem _ _
  have h1 : stripLeft (pyStrip s) = pyStrip s :=
    dropWhile_fix_of_prefix hfix hpre
  have h2 : stripRight (pyStrip s) = pyStrip s := by
    have hrev : (pyStrip s).reverse = List.dropWhile isPySpace (stripLeft s).reverse := by
      simp [pyStrip, stripRight]
    have : List.dropWhile isPySpace (pyStrip s).reverse = (pyStrip s).reverse := by
      rw [hrev, dropWhile_idem]
    simp [stripRight, this]
  rw [pyStrip, h1, h2]

theorem stripRight_append_newline (y : Str) : stripRight (y ++ ['\n']) = stripRight y := by
  simp [stripRight, List.reverse_append, List.dropWhile_cons, isPySpace]

theorem stripRight_append_stripped {a text : Str} (ht : stripRight text = text)
    (hne : text ≠ []) : stripRight (a ++ text) = a ++ text := by
  have hrev : List.dropWhile isPySpace text.reverse = text.reverse :=
    dropWhile_rev_eq_of_stripRight ht
  obtain ⟨c, z, hz⟩ : ∃ c z, text.reverse = c :: z := by
    cases hr : text.reverse with
    | nil => exact absurd (by simpa using congrArg List.reverse hr) hne
    | cons c z => exact ⟨c, z, rfl⟩
  have hc : isPySpace c = false := dropWhile_fix_head (hz ▸ hrev)
  have : List.dropWhile isPySpace (text.reverse ++ a.reverse) = text.reverse ++ a.reverse := by
    rw [hz, List.cons_append, List.dropWhile_cons, hc]
    simp
  simp [stripRight, List.reverse_append, this]

theorem pyStrip_head_not_space {s : Str} {c : Char} {t : Str}
    (h : pyStrip s = s) (hs : s = c :: t) : isPySpace c = false := by
  have := stripLeft_eq_of_pyStrip h
  exact dropWhile_fix_head (by rw [← hs]; exact this)

/-- For stripped nonempty `text`, the repair prompt of the grounded selector
is the fixed body followed by the malformed text verbatim. -/
theorem selFixPrompt_eq {text : Str} (h : pyStrip text = text) (hne : text ≠ []) :
    selFixPrompt text = selFixBody ++ text := by
  have h1 : stripLeft ('\n' :: selFixBody ++ (text ++ ['\n'])) = selFixBody ++ (text ++ ['\n']) := by
    rfl
  have h2 : stripRight (selFixBody ++ (text ++ ['\n'])) = selFixBody ++ text := by
    have := stripRight_append_newline (selFixBody ++ text)
    rw [List.append_assoc] at this
    rw [this]
    exact stripRight_append_stripped (stripRight_eq_of_pyStrip h) hne
  have : selFixPrompt text = stripRight (stripLeft ('\n' :: selFixBody ++ (text ++ ['\n']))) := by
    simp [selFixPrompt, pyStrip]
  rw [this, h1, h2]

/-- The malformed text is contained verbatim (as a suffix) in the repair
prompt, whether or not it is empty. -/
theorem text_suffix_selFixPrompt {text : Str} (h : pyStrip text = text) :
    text <:+ selFixPrompt text := by
  by_cases hne : text = []
  · subst hne; exact List.nil_suffix
  · rw [selFixPrompt_eq h hne]; exact ⟨selFixBody, rfl⟩

/-! ## Helper lemmas: dicts and the merge loop -/

/-- Lookup in a concatenated dict: the right part wins when it binds the key. -/
theorem dictGet_append (a b : Dict) (k : Str) :
    dictGet (a ++ b) k =
      match dictGet b k with
      | some v => some v
      | none => dictGet a k := by
  induction a with
  | nil => simp [dictGet]; cases dictGet b k <;> rfl
  | cons kv rest ih =>
    rw [List.cons_append]
    show (match dictGet (rest ++ b) k with
          | some v => some v
          | none => if kv.1 = k then some kv.2 else none) = _
    rw [ih]
    cases hb : dictGet b k <;> cases hr : dictGet rest k <;> simp [dictGet, hr]

/-- A successful `int(s.get("id"))` implies the entry is a dict. -/
theorem selIdOf_ok_jobj {s : JVal} {gid : Int} (h : selIdOf s = .ok gid) :
    ∃ d, s = .jobj d := by
  cases s with
  | jnull => exact absurd h (by simp [selIdOf, pyGet])
  | jbool b => exact absurd h (by simp [selIdOf, pyGet])
  | jint n => exact absurd h (by simp [selIdOf, pyGet])
  | jstr t => exact absurd h (by simp [selIdOf, pyGet])
  | jlist xs => exact absurd h (by simp [selIdOf, pyGet])
  | jobj d => exact ⟨d, rfl⟩

/-- The merge loop never raises and computes exactly the per-entry
contributions: entries with a missing, unconvertible or unknown identifier
are dropped, the rest merge the fact under the annotation. -/
theorem mergeGo_eq (fm : List (JVal × Dict)) (sel : List JVal) :
    mergeGo fm sel = .ok (sel.filterMap (mergeSpecStep fm)) := by
  induction sel with
  | nil => rfl
  | cons s rest ih =>
    rw [List.filterMap_cons]
    cases hid : selIdOf s with
    | error e => simp [mergeGo, mergeSpecStep, hid, ih]
    | ok gid =>
      cases hlk : lookupFM fm gid with
      | none => simp [mergeGo, mergeSpecStep, hid, hlk, ih]
      | some f =>
        obtain ⟨d, rfl⟩ := selIdOf_ok_jobj hid
        simp [mergeGo, mergeSpecStep, hid, hlk, ih]

/-- If every fact has an `id` field, `fact_map` construction succeeds. -/
theorem factKeys_ok {factual : List Dict}
    (h : ∀ g ∈ factual, (dictGet g idKey).isSome = true) :
    ∃ fm, factKeys factual = .ok fm := by
  induction factual with
  | nil => exact ⟨[], rfl⟩
  | cons g rest ih =>
    have hg := h g (by simp)
    obtain ⟨v, hv⟩ : ∃ v, dictGet g idKey = some v := by
      cases hx : dictGet g idKey with
      | none => rw [hx] at hg; simp at hg
      | some v => exact ⟨v, rfl⟩
    obtain ⟨fm, hfm⟩ := ih (fun g hgm => h g (by simp [hgm]))
    exact ⟨(v, g) :: fm, by simp [factKeys, hv, hfm]⟩

/-! ## Helper lemmas: the fact resolver -/

/-- A catalog id whose detail phase fully succeeds and passes the platform
filter (with the genre extraction the fact literal performs). -/
def detailOK (cat : Catalog) (uplats : List Str) (gid : Int) : Prop :=
  ∃ d ps gs, cat.detail gid = .ok d ∧ game_platforms d = .ok ps ∧
    platform_filter_pass uplats ps = true ∧ game_genres d = .ok gs

theorem candDetail_of_detailOK {cat : Catalog} {up : List Str} {gid : Int}
    (h : detailOK cat up gid) (top : JVal) (title : Str) :
    ∃ fact, candDetail cat up gid top title = .ok (some fact) := by
  obtain ⟨d, ps, gs, hd, hps, hf, hgs⟩ := h
  exact ⟨mkFact gid d top title ps gs, by simp [candDetail, hd, hps, hf, hgs]⟩

theorem detailOK_of_candDetail {cat : Catalog} {up : List Str} {gid : Int}
    {top : JVal} {title : Str} {fact : Dict}
    (h : candDetail cat up gid top title = .ok (some fact)) : detailOK cat up gid := by
  cases hd : cat.detail gid with
  | error e => simp [candDetail, hd] at h
  | ok d =>
    cases hps : game_platforms d with
    | error e => simp [candDetail, hd, hps] at h
    | ok ps =>
      by_cases hf : platform_filter_pass up ps = true
      · cases hgs : game_genres d with
        | error e => simp [candDetail, hd, hps, hf, hgs] at h
        | ok gs => exact ⟨d, ps, gs, hd, hps, hf, hgs⟩
      · have hf2 : platform_filter_pass up ps = false := by simpa using hf
        simp [candDetail, hd, hps, hf2] at h

theorem candFact?_none_of_idOf {cat : Catalog} {up : List Str} {t : Str}
    (h : candIdOf cat t = .ok none) : candFact? cat up t = none := by
  simp [candFact?, h]

theorem candFact?_some {cat : Catalog} {up : List Str} {t : Str} {gid : Int}
    {top : JVal} {fact : Dict} (h1 : candIdOf cat t = .ok (some (gid, top)))
    (h2 : candDetail cat up gid top t = .ok (some fact)) :
    candFact? cat up t = some (gid, fact) := by
  simp [candFact?, h1, h2]

theorem candFact?_none_of_detail_none {cat : Catalog} {up : List Str} {t : Str}
    {gid : Int} {top : JVal} (h1 : candIdOf cat t = .ok (some (gid, top)))
    (h2 : candDetail cat up gid top t = .ok none) : candFact? cat up t = none := by
  simp [candFact?, h1, h2]

/-- `dedupFst` drops ids in `seen`. -/
theorem dedupFst_cons_mem {seen : List Int} {pr : Int × Dict} {l : List (Int × Dict)}
    (h : pr.1 ∈ seen) : dedupFst seen (pr :: l) = dedupFst seen l := by
  simp [dedupFst, h]

theorem dedupFst_cons_not_mem {seen : List Int} {pr : Int × Dict} {l : List (Int × Dict)}
    (h : pr.1 ∉ seen) : dedupFst seen (pr :: l) = pr :: dedupFst (pr.1 :: seen) l := by
  simp [dedupFst, h]

theorem mem_of_mem_dedupFst : ∀ {l : List (Int × Dict)} {seen : List Int}
    {pr : Int × Dict}, pr ∈ dedupFst seen l → pr ∈ l := by
  intro l
  induction l with
  | nil => intro seen pr h; simp [dedupFst] at h
  | cons q rest ih =>
    intro seen pr h
    by_cases hq : q.1 ∈ seen
    · rw [dedupFst_cons_mem hq] at h
      exact List.mem_cons_of_mem q (ih h)
    · rw [dedupFst_cons_not_mem hq] at h
      rcases List.mem_cons.mp h with rfl | h2
      · exact List.mem_cons_self _ _
      · exact List.mem_cons_of_mem _ (ih h2)

/-- The first components of a `dedupFst` output are distinct and avoid `seen`. -/
theorem dedupFst_fst_nodup : ∀ (l : List (Int × Dict)) (seen : List Int),
    ((dedupFst seen l).map Prod.fst).Nodup ∧
      ∀ g ∈ (dedupFst seen l).map Prod.fst, g ∉ seen := by
  intro l
  induction l with
  | nil => intro seen; simp [dedupFst]
  | cons q rest ih =>
    intro seen
    by_cases hq : q.1 ∈ seen
    · rw [dedupFst_cons_mem hq]; exact ih seen
    · rw [dedupFst_cons_not_mem hq]
      obtain ⟨hnd, havoid⟩ := ih (q.1 :: seen)
      refine ⟨?_, ?_⟩
      · rw [List.map_cons, List.nodup_cons]
        refine ⟨fun hmem => ?_, hnd⟩
        exact (havoid q.1 hmem) (List.mem_cons_self _ _)
      · intro g hg
        rw [List.map_cons] at hg
        rcases List.mem_cons.mp hg with rfl | h2
        · exact hq
        · intro hgs
          exact (havoid g h2) (List.mem_cons_of_mem _ hgs)

/-- The `id` field of a resolved fact literal is its catalog id. -/
theorem dictGet_mkFact_id (gid : Int) (d top : JVal) (title : Str)
    (plats genres : List Str) :
    dictGet (mkFact gid d top title plats genres) idKey = some (.jint gid) := rfl

/-- A fully resolving candidate produces a fact whose `id` field is its id. -/
theorem candFact?_id {cat : Catalog} {up : List Str} {t : Str} {gid : Int}
    {fact : Dict} (h : candFact? cat up t = some (gid, fact)) :
    dictGet fact idKey = some (.jint gid) := by
  unfold candFact? at h
  cases hci : candIdOf cat t with
  | error e => simp [hci] at h
  | ok o =>
    cases o with
    | none => simp [hci] at h
    | some pr =>
      obtain ⟨gid0, top⟩ := pr
      simp only [hci] at h
      cases hcd : candDetail cat up gid0 top t with
      | error e => simp [hcd] at h
      | ok od =>
        cases od with
        | none => simp [hcd] at h
        | some fact0 =>
          simp only [hcd] at h
          simp at h
          obtain ⟨h1, h2⟩ := h
          obtain ⟨d0, ps0, gs0, hd, hps, hf, hgs⟩ := detailOK_of_candDetail hcd
          have hshape : mkFact gid0 d0 top t ps0 gs0 = fact0 := by
            have hf2 : (!platform_filter_pass up ps0) = false := by simp [hf]
            simp only [candDetail, hd, hps, hf2, hgs] at hcd
            simpa using hcd
          rw [← h2, ← hshape, ← h1]
          exact dictGet_mkFact_id ..

/-- Conditional `filterMap`-to-`map` conversion. -/
theorem filterMap_eq_map_of_forall {α β : Type} {f : α → Option β} {g : α → β}
    {l : List α} (h : ∀ x ∈ l, f x = some (g x)) : l.filterMap f = l.map g := by
  induction l with
  | nil => rfl
  | cons x rest ih =>
    rw [List.filterMap_cons, h x (by simp), List.map_cons,
      ih (fun y hy => h y (by simp [hy]))]

theorem dedupFst_cons_mem_pair (g : Int) (d : Dict) (seen : List Int)
    (l : List (Int × Dict)) (h : g ∈ seen) :
    dedupFst seen ((g, d) :: l) = dedupFst seen l := dedupFst_cons_mem h

theorem dedupFst_cons_not_mem_pair (g : Int) (d : Dict) (seen : List Int)
    (l : List (Int × Dict)) (h : g ∉ seen) :
    dedupFst seen ((g, d) :: l) = (g, d) :: dedupFst (g :: seen) l :=
  dedupFst_cons_not_mem h

/-- Characterization of a successful resolver run: the resulting fact list
is the candidate-order per-candidate results, deduplicated by catalog id
first-occurrence-wins, cut to the remaining room below the ceiling. -/
theorem resolveGo_ok_char (cat : Catalog) (up : List Str) (M : Nat) :
    ∀ (cands : List Str) (factual : List Dict) (seen : List Int) (queried : List Str)
      (F : List Dict) (Q : List Str),
      resolveGo cat up M cands factual seen queried = .ok (F, Q) →
      (∀ g ∈ seen, detailOK cat up g) →
      factual.length < M →
      F = factual ++
        ((dedupFst seen (cands.filterMap (candFact? cat up))).take (M - factual.length)).map
          Prod.snd := by
  intro cands
  induction cands with
  | nil =>
    intro factual seen queried F Q h hseen hlt
    simp only [resolveGo] at h
    obtain ⟨h1, h2⟩ : factual = F ∧ queried = Q := by simpa using h
    simp [← h1, dedupFst]
  | cons t rest ih =>
    intro factual seen queried F Q h hseen hlt
    cases hci : candIdOf cat t with
    | error e => simp [resolveGo, hci] at h
    | ok o =>
      cases o with
      | none =>
        simp only [resolveGo, hci] at h
        have hrec := ih factual seen (queried ++ [t]) F Q h hseen hlt
        rw [hrec, List.filterMap_cons, candFact?_none_of_idOf hci]
      | some pr =>
        obtain ⟨gid, top⟩ := pr
        by_cases hs : gid ∈ seen
        · simp only [resolveGo, hci] at h
          rw [if_pos hs] at h
          obtain ⟨fact_t, hft⟩ := candDetail_of_detailOK (hseen gid hs) top t
          have hcf := candFact?_some hci hft
          have hrec := ih factual seen (queried ++ [t]) F Q h hseen hlt
          rw [hrec, List.filterMap_cons, hcf, dedupFst_cons_mem_pair gid fact_t seen _ hs]
        · cases hcd : candDetail cat up gid top t with
          | error e =>
            simp only [resolveGo, hci] at h
            rw [if_neg hs] at h
            simp [hcd] at h
          | ok od =>
            cases od with
            | none =>
              simp only [resolveGo, hci] at h
              rw [if_neg hs] at h
              simp only [hcd] at h
              have hrec := ih factual seen (queried ++ [t]) F Q h hseen hlt
              rw [hrec, List.filterMap_cons, candFact?_none_of_detail_none hci hcd]
            | some fact =>
              have hcf := candFact?_some hci hcd
              simp only [resolveGo, hci] at h
              rw [if_neg hs] at h
              simp only [hcd] at h
              by_cases hbr : M ≤ (factual ++ [fact]).length
              · rw [if_pos hbr] at h
                obtain ⟨h1, h2⟩ : factual ++ [fact] = F ∧ queried ++ [t] = Q := by
                  simpa using h
                have hM : M - factual.length = 1 := by
                  simp [List.length_append] at hbr; omega
                rw [← h1, List.filterMap_cons, hcf,
                  dedupFst_cons_not_mem_pair gid fact seen _ hs, hM]
                simp
              · rw [if_neg hbr] at h
                have hlt2 : (factual ++ [fact]).length < M := by
                  simp [List.length_append] at hbr ⊢; omega
                have hseen2 : ∀ g ∈ gid :: seen, detailOK cat up g := by
                  intro g hg
                  rcases List.mem_cons.mp hg with rfl | hg2
                  · exact detailOK_of_candDetail hcd
                  · exact hseen g hg2
                have hrec := ih (factual ++ [fact]) (gid :: seen) (queried ++ [t]) F Q h
                  hseen2 hlt2
                rw [hrec, List.filterMap_cons, hcf,
                  dedupFst_cons_not_mem_pair gid fact seen _ hs]
                have hM : M - factual.length = (M - (factual ++ [fact]).length) + 1 := by
                  simp [List.length_append] at hlt2 ⊢; omega
                rw [hM, List.take_succ_cons]
                simp

/-- The searched candidates form a prefix of the candidate list. -/
theorem resolveGo_queried (cat : Catalog) (up : List Str) (M : Nat) :
    ∀ (cands : List Str) (factual : List Dict) (seen : List Int) (queried : List Str)
      (F : List Dict) (Q : List Str),
      resolveGo cat up M cands factual seen queried = .ok (F, Q) →
      ∃ k, Q = queried ++ cands.take k := by
  intro cands
  induction cands with
  | nil =>
    intro factual seen queried F Q h
    simp only [resolveGo] at h
    obtain ⟨h1, h2⟩ : factual = F ∧ queried = Q := by simpa using h
    exact ⟨0, by simp [← h2]⟩
  | cons t rest ih =>
    intro factual seen queried F Q h
    cases hci : candIdOf cat t with
    | error e => simp [resolveGo, hci] at h
    | ok o =>
      cases o with
      | none =>
        simp only [resolveGo, hci] at h
        obtain ⟨k, hk⟩ := ih factual seen (queried ++ [t]) F Q h
        exact ⟨k + 1, by simp [hk, List.take_succ_cons]⟩
      | some pr =>
        obtain ⟨gid, top⟩ := pr
        by_cases hs : gid ∈ seen
        · simp only [resolveGo, hci] at h
          rw [if_pos hs] at h
          obtain ⟨k, hk⟩ := ih factual seen (queried ++ [t]) F Q h
          exact ⟨k + 1, by simp [hk, List.take_succ_cons]⟩
        · cases hcd : candDetail cat up gid top t with
          | error e =>
            simp only [resolveGo, hci] at h
            rw [if_neg hs] at h
            simp [hcd] at h
          | ok od =>
            cases od with
            | none =>
              simp only [resolveGo, hci] at h
              rw [if_neg hs] at h
              simp only [hcd] at h
              obtain ⟨k, hk⟩ := ih factual seen (queried ++ [t]) F Q h
              exact ⟨k + 1, by simp [hk, List.take_succ_cons]⟩
            | some fact =>
              simp only [resolveGo, hci] at h
              rw [if_neg hs] at h
              simp only [hcd] at h
              by_cases hbr : M ≤ (factual ++ [fact]).length
              · rw [if_pos hbr] at h
                obtain ⟨h1, h2⟩ : factual ++ [fact] = F ∧ queried ++ [t] = Q := by
                  simpa using h
                exact ⟨1, by simp [← h2, List.take_succ_cons]⟩
              · rw [if_neg hbr] at h
                obtain ⟨k, hk⟩ := ih (factual ++ [fact]) (gid :: seen) (queried ++ [t]) F Q h
                exact ⟨k + 1, by simp [hk, List.take_succ_cons]⟩

/-- Early termination: once the ceiling is reached, appending further
candidates changes nothing (they are never queried). -/
theorem resolveGo_extend (cat : Catalog) (up : List Str) (M : Nat) :
    ∀ (cands : List Str) (factual : List Dict) (seen : List Int) (queried : List Str)
      (F : List Dict) (Q : List Str) (extra : List Str),
      resolveGo cat up M cands factual seen queried = .ok (F, Q) →
      factual.length < M → M ≤ F.length →
      resolveGo cat up M (cands ++ extra) factual seen queried = .ok (F, Q) := by
  intro cands
  induction cands with
  | nil =>
    intro factual seen queried F Q extra h hlt hge
    simp only [resolveGo] at h
    obtain ⟨h1, h2⟩ : factual = F ∧ queried = Q := by simpa using h
    rw [← h1] at hge
    omega
  | cons t rest ih =>
    intro factual seen queried F Q extra h hlt hge
    rw [List.cons_append]
    cases hci : candIdOf cat t with
    | error e => simp [resolveGo, hci] at h
    | ok o =>
      cases o with
      | none =>
        simp only [resolveGo, hci] at h ⊢
        exact ih factual seen (queried ++ [t]) F Q extra h hlt hge
      | some pr =>
        obtain ⟨gid, top⟩ := pr
        by_cases hs : gid ∈ seen
        · simp only [resolveGo, hci] at h ⊢
          rw [if_pos hs] at h ⊢
          exact ih factual seen (queried ++ [t]) F Q extra h hlt hge
        · cases hcd : candDetail cat up gid top t with
          | error e =>
            simp only [resolveGo, hci] at h
            rw [if_neg hs] at h
            simp [hcd] at h
          | ok od =>
            cases od with
            | none =>
              simp only [resolveGo, hci] at h ⊢
              rw [if_neg hs] at h ⊢
              simp only [hcd] at h ⊢
              exact ih factual seen (queried ++ [t]) F Q extra h hlt hge
            | some fact =>
              simp only [resolveGo, hci] at h ⊢
              rw [if_neg hs] at h ⊢
              simp only [hcd] at h ⊢
              by_cases hbr : M ≤ (factual ++ [fact]).length
              · rw [if_pos hbr] at h ⊢
                exact h
              · rw [if_neg hbr] at h ⊢
                have hlt2 : (factual ++ [fact]).length < M := by
                  simp [List.length_append] at hbr ⊢; omega
                exact ih (factual ++ [fact]) (gid :: seen) (queried ++ [t]) F Q extra h
                  hlt2 hge

/-! ## Helper lemmas: substring tests and case-insensitive dedup -/

theorem isPrefixB_iff : ∀ a b : Str, isPrefixB a b = true ↔ a <+: b := by
  intro a
  induction a with
  | nil => intro b; simp [isPrefixB]
  | cons x xs ih =>
    intro b
    cases b with
    | nil => simp [isPrefixB]
    | cons y ys =>
      simp [isPrefixB, List.cons_prefix_cons, ih]

theorem isInfixB_iff (a : Str) : ∀ b : Str, isInfixB a b = true ↔ a <:+: b := by
  intro b
  induction b with
  | nil => simp [isInfixB, List.isEmpty_iff]
  | cons c rest ih =>
    simp [isInfixB, isPrefixB_iff, ih, List.infix_cons_iff]

theorem mem_dedupCI : ∀ (l : List Str) (seen : List Str) (x : Str),
    x ∈ dedupCI seen l → x ∈ l := by
  intro l
  induction l with
  | nil => intro seen x h; simp [dedupCI] at h
  | cons t ts ih =>
    intro seen x h
    simp only [dedupCI] at h
    by_cases hk : pyLower t ∈ seen
    · rw [if_pos hk] at h
      exact List.mem_cons_of_mem _ (ih seen x h)
    · rw [if_neg hk] at h
      rcases List.mem_cons.mp h with rfl | h2
      · exact List.mem_cons_self _ _
      · exact List.mem_cons_of_mem _ (ih _ x h2)

theorem dedupCI_lower_nodup : ∀ (l : List Str) (seen : List Str),
    ((dedupCI seen l).map pyLower).Nodup ∧
      ∀ k ∈ (dedupCI seen l).map pyLower, k ∉ seen := by
  intro l
  induction l with
  | nil => intro seen; simp [dedupCI]
  | cons t ts ih =>
    intro seen
    simp only [dedupCI]
    by_cases hk : pyLower t ∈ seen
    · rw [if_pos hk]; exact ih seen
    · rw [if_neg hk]
      obtain ⟨hnd, havoid⟩ := ih (pyLower t :: seen)
      refine ⟨?_, ?_⟩
      · rw [List.map_cons, List.nodup_cons]
        exact ⟨fun hmem => (havoid _ hmem) (List.mem_cons_self _ _), hnd⟩
      · intro k hk2
        rw [List.map_cons] at hk2
        rcases List.mem_cons.mp hk2 with rfl | h2
        · exact hk
        · intro hks
          exact (havoid k h2) (List.mem_cons_of_mem _ hks)

/-! ## Claim theorems -/

/-- C7: the Platform Matcher returns true for every catalog platform list
when the user filter is empty; `["모바일"]` matches `["Android"]`; `["PS"]`
does not match `["PC", "Nintendo Switch"]`; and for a nonempty filter it
returns true exactly when some mapped token is a case-insensitive substring
of the `" | "`-joined catalog platform names. -/
theorem platform_matcher_spec :
    (∀ gps : List Str, platform_filter_pass [] gps = true)
    ∧ platform_filter_pass [("모바일").toList] [("Android").toList] = true
    ∧ platform_filter_pass [("PS").toList]
        [("PC").toList, ("Nintendo Switch").toList] = false
    ∧ ∀ (ups gps : List Str), ups ≠ [] →
        (platform_filter_pass ups gps = true ↔
          ∃ t ∈ ups.foldl (fun acc up => acc ++ map_platform_choice_to_rawg_tokens up) [],
            pyLower t <:+: pyLower (joinWith ((" | ").toList) gps)) := by
  refine ⟨fun gps => rfl, by decide, by decide, ?_⟩
  intro ups gps hne
  unfold platform_filter_pass
  rw [if_neg (by simpa [List.isEmpty_iff] using hne)]
  simp only [List.any_eq_true, isInfixB_iff]

/-- Witness for C7 at concrete inputs. -/
theorem platform_matcher_spec_witness :
    platform_filter_pass [] [("anything").toList] = true
    ∧ (platform_filter_pass [("PS").toList] [("PlayStation 5").toList] = true ↔
        ∃ t ∈ ([("PS").toList] : List Str).foldl
          (fun acc up => acc ++ map_platform_choice_to_rawg_tokens up) [],
          pyLower t <:+: pyLower (joinWith ((" | ").toList) [("PlayStation 5").toList])) :=
  ⟨platform_matcher_spec.1 _,
   platform_matcher_spec.2.2.2 [("PS").toList] [("PlayStation 5").toList] (by decide)⟩

/-- C5 counterexample: with N = 2 and the reply `{"candidates": ["A", "a"]}`
the length check passes but case-insensitive dedup leaves a single title, so
the Candidate Generator returns fewer than N strings without failing. -/
theorem candidate_generator_undercount :
    openai_get_candidates jsonLoads (("\x7b\"candidates\": [\"A\", \"a\"]\x7d").toList) 2 =
      .ok [("A").toList]
    ∧ ¬ ∃ out, openai_get_candidates jsonLoads
        (("\x7b\"candidates\": [\"A\", \"a\"]\x7d").toList) 2 = .ok out
        ∧ out.length = 2 := by
  refine ⟨rfl, ?_⟩
  rintro ⟨out, h1, h2⟩
  have h0 : openai_get_candidates jsonLoads
      (("\x7b\"candidates\": [\"A\", \"a\"]\x7d").toList) 2 = .ok [("A").toList] := rfl
  rw [h0] at h1
  have : [("A").toList] = out := Except.ok.inj h1
  rw [← this] at h2
  simp at h2

/-- C5 as amended: a successful Candidate Generator call returns at most N
case-insensitively distinct non-empty strings — possibly fewer than N, when
the model's N entries contain case-insensitive duplicates or entries that
are blank after trimming; otherwise it fails. -/
theorem candidate_generator_output_bounds (p : Str → Option JVal) (reply : Str)
    (n : Nat) (out : List Str) (h : openai_get_candidates p reply n = .ok out) :
    out.length ≤ n ∧ (∀ t ∈ out, t ≠ []) ∧ (out.map pyLower).Nodup := by
  unfold openai_get_candidates at h
  cases hp : safe_json_loads p reply with
  | none => simp [hp] at h
  | some obj =>
    simp only [hp] at h
    cases hg : pyGetD obj kCandidates (.jlist []) with
    | error e => simp [hg] at h
    | ok cands =>
      simp only [hg] at h
      cases cands with
      | jnull => simp at h
      | jbool b => simp at h
      | jint m => simp at h
      | jstr t => simp at h
      | jobj fs => simp at h
      | jlist xs =>
        have h2 : (if xs.length ≠ n then
              (Except.error (PyErr.valueError candErrMsg) : Except PyErr (List Str))
            else .ok ((dedupCI []
              ((xs.map (fun x => pyStrip (pyStr x))).filter (fun t => !t.isEmpty))).take n))
            = .ok out := h
        by_cases hlen : xs.length ≠ n
        · simp [hlen] at h2
        · rw [if_neg hlen] at h2
          have hout : (dedupCI []
              ((xs.map (fun x => pyStrip (pyStr x))).filter (fun t => !t.isEmpty))).take n
              = out := by simpa using h2
          refine ⟨?_, ?_, ?_⟩
          · rw [← hout]; exact List.length_take_le _ _
          · intro t ht
            rw [← hout] at ht
            have ht2 := mem_dedupCI _ _ _ (List.mem_of_mem_take ht)
            have := (List.mem_filter.mp ht2).2
            simpa [List.isEmpty_iff] using this
          · rw [← hout, List.map_take]
            exact List.Nodup.sublist (List.take_sublist _ _) ((dedupCI_lower_nodup _ []).1)

/-- Witness for the amended C5 at a concrete input. -/
theorem candidate_generator_output_bounds_witness :
    ([("A").toList] : List Str).length ≤ 2
    ∧ (∀ t ∈ ([("A").toList] : List Str), t ≠ [])
    ∧ (([("A").toList] : List Str).map pyLower).Nodup :=
  candidate_generator_output_bounds jsonLoads
    (("\x7b\"candidates\": [\"A\", \"a\"]\x7d").toList) 2 [("A").toList] rfl

/-- C9: every merged Recommendation is the dict union of the catalog fact
under the model's selected entry: the annotation's bindings win on shared
keys (such as `"name"`), and fact fields without a matching annotation key
read through unchanged. -/
theorem merge_annotation_precedence (fm : List (JVal × Dict)) (sel : List JVal)
    (l : List Dict) (h : mergeGo fm sel = .ok l) :
    ∀ d ∈ l, ∃ s ∈ sel, ∃ dAnn gid f, s = .jobj dAnn ∧ selIdOf s = .ok gid ∧
      lookupFM fm gid = some f ∧ d = f ++ dAnn ∧
      ∀ k, dictGet d k = match dictGet dAnn k with
        | some v => some v
        | none => dictGet f k := by
  rw [mergeGo_eq] at h
  have hl : sel.filterMap (mergeSpecStep fm) = l := by simpa using h
  rw [← hl]
  intro d hd
  obtain ⟨s, hs, hstep⟩ := List.mem_filterMap.mp hd
  unfold mergeSpecStep at hstep
  cases hid : selIdOf s with
  | error e => simp [hid] at hstep
  | ok gid =>
    simp only [hid] at hstep
    cases hlk : lookupFM fm gid with
    | none => simp only [hlk] at hstep; cases s <;> simp at hstep
    | some f =>
      simp only [hlk] at hstep
      obtain ⟨dAnn, rfl⟩ := selIdOf_ok_jobj hid
      have hd2 : f ++ dAnn = d := by simpa using hstep
      refine ⟨.jobj dAnn, hs, dAnn, gid, f, rfl, hid, hlk, hd2.symm, fun k => ?_⟩
      rw [← hd2]
      exact dictGet_append f dAnn k

/-- Concrete fact map and selection for the C9 witness. -/
def fmW : List (JVal × Dict) :=
  [(.jint 1, [(kName, .jstr (("Catalog").toList)), (kReleased, .jstr (("2020").toList))])]

def selW : List JVal :=
  [.jobj [(idKey, .jint 1), (kName, .jstr (("Model").toList))]]

def mergedW : Dict :=
  [(kName, .jstr (("Catalog").toList)), (kReleased, .jstr (("2020").toList)),
   (idKey, .jint 1), (kName, .jstr (("Model").toList))]

/-- Witness for C9 at a concrete merged entry. -/
theorem merge_annotation_precedence_witness :
    ∃ s ∈ selW, ∃ dAnn gid f, s = .jobj dAnn ∧ selIdOf s = .ok gid ∧
      lookupFM fmW gid = some f ∧ mergedW = f ++ dAnn ∧
      ∀ k, dictGet mergedW k = match dictGet dAnn k with
        | some v => some v
        | none => dictGet f k :=
  merge_annotation_precedence fmW selW [mergedW] rfl mergedW (List.mem_cons_self _ _)

/-- C1: for any selection list, the grounded merge never raises — entries
whose `id` is missing or not convertible to an integer are skipped by the
caught conversion, entries whose id is absent from the fact map contribute
nothing, and the output is exactly the per-entry merges of the fact with
its annotation, in the model's order. -/
theorem grounded_merge_excludes_unknown_ids (factual : List Dict) (sel : List JVal)
    (hids : ∀ g ∈ factual, (dictGet g idKey).isSome = true) :
    ∃ fm, factKeys factual = .ok fm
      ∧ groundedMergeE factual sel = .ok (sel.filterMap (mergeSpecStep fm))
      ∧ (∀ s ∈ sel, (∀ gid, selIdOf s = .ok gid → lookupFM fm gid = none) →
          mergeSpecStep fm s = none)
      ∧ (∀ s ∈ sel, ∀ e, selIdOf s = .error e → mergeSpecStep fm s = none) := by
  obtain ⟨fm, hfm⟩ := factKeys_ok hids
  refine ⟨fm, hfm, ?_, ?_, ?_⟩
  · unfold groundedMergeE; rw [hfm]; exact mergeGo_eq fm sel
  · intro s hs habs
    unfold mergeSpecStep
    cases hid : selIdOf s with
    | error e => simp [hid]
    | ok gid => simp only [hid, habs gid hid]
  · intro s hs e hid
    unfold mergeSpecStep
    simp [hid]

/-- Concrete fact list and selection for the C1 witness: one known id, one
unknown id, one missing id, one non-dict entry. -/
def factualW : List Dict := [[(idKey, .jint 1), (kName, .jstr (("F").toList))]]

def selW2 : List JVal :=
  [.jobj [(idKey, .jint 1), (kName, .jstr (("ann").toList))],
   .jobj [(idKey, .jint 7)],
   .jobj [(kName, .jstr (("noid").toList))],
   .jstr (("notadict").toList)]

/-- Witness for C1 at concrete inputs. -/
theorem grounded_merge_excludes_unknown_ids_witness :
    ∃ fm, factKeys factualW = .ok fm
      ∧ groundedMergeE factualW selW2 = .ok (selW2.filterMap (mergeSpecStep fm))
      ∧ (∀ s ∈ selW2, (∀ gid, selIdOf s = .ok gid → lookupFM fm gid = none) →
          mergeSpecStep fm s = none)
      ∧ (∀ s ∈ selW2, ∀ e, selIdOf s = .error e → mergeSpecStep fm s = none) :=
  grounded_merge_excludes_unknown_ids factualW selW2 (by
    intro g hg
    rw [List.mem_singleton.mp hg]
    rfl)

theorem dictGet_append_single (d : Dict) (k : Str) (v : JVal) :
    dictGet (d ++ [(k, v)]) k = some v := by
  rw [dictGet_append]
  simp [dictGet]

/-- Reading `selected` from a JSON object, `none` on non-objects. -/
def jvalGetObj (v : JVal) (k : Str) : Option JVal :=
  match v with
  | .jobj d => dictGet d k
  | _ => none

theorem fbFinish_ok {obj0 : JVal} {K : Nat} {obj : JVal}
    (h : fbFinish obj0 K = .ok obj) :
    ∃ ys, pyGetD obj0 kSelected (.jlist []) = .ok (.jlist ys)
      ∧ obj = dictSet obj0 kSelected (.jlist (ys.take K))
      ∧ jvalGetObj obj kSelected = some (.jlist (ys.take K)) := by
  unfold fbFinish at h
  cases hg : pyGetD obj0 kSelected (.jlist []) with
  | error e => simp [hg] at h
  | ok sel =>
    simp only [hg] at h
    cases sel with
    | jnull => simp at h
    | jbool b => simp at h
    | jint m => simp at h
    | jstr t => simp at h
    | jobj fs => simp at h
    | jlist ys =>
      have hobj : dictSet obj0 kSelected (.jlist (ys.take K)) = obj := by simpa using h
      refine ⟨ys, rfl, hobj.symm, ?_⟩
      cases obj0 with
      | jobj d0 =>
        rw [← hobj]
        simp only [dictSet, jvalGetObj]
        exact dictGet_append_single d0 kSelected _
      | jnull => simp [pyGetD] at hg
      | jbool b => simp [pyGetD] at hg
      | jint m => simp [pyGetD] at hg
      | jstr t => simp [pyGetD] at hg
      | jlist zs => simp [pyGetD] at hg

/-- C8: a successful fallback selection returns an object whose `selected`
list is the model's list truncated to the first `K` entries — its length is
between 0 and `K` inclusive however many entries the model produced. -/
theorem fallback_selection_truncation (p : Str → Option JVal) (oracle : Str → Str)
    (prompt0 : Str) (K : Nat) (obj : JVal)
    (h : (openai_select_fallback_no_rawg p oracle prompt0 K).1 = .ok obj) :
    ∃ obj0 ys,
      (safe_json_loads p (pyStrip (oracle prompt0)) = some obj0 ∨
       safe_json_loads p (oracle (fbFixPrompt (pyStrip (oracle prompt0)) K)) = some obj0)
      ∧ pyGetD obj0 kSelected (.jlist []) = .ok (.jlist ys)
      ∧ obj = dictSet obj0 kSelected (.jlist (ys.take K))
      ∧ jvalGetObj obj kSelected = some (.jlist (ys.take K))
      ∧ (ys.take K).length ≤ K := by
  unfold openai_select_fallback_no_rawg at h
  cases hp1 : safe_json_loads p (pyStrip (oracle prompt0)) with
  | some obj0 =>
    simp only [hp1] at h
    obtain ⟨ys, h1, h2, h3⟩ := fbFinish_ok h
    exact ⟨obj0, ys, Or.inl rfl, h1, h2, h3, List.length_take_le _ _⟩
  | none =>
    simp only [hp1] at h
    cases hp2 : safe_json_loads p (oracle (fbFixPrompt (pyStrip (oracle prompt0)) K)) with
    | some obj0 =>
      simp only [hp2] at h
      obtain ⟨ys, h1, h2, h3⟩ := fbFinish_ok h
      exact ⟨obj0, ys, Or.inr rfl, h1, h2, h3, List.length_take_le _ _⟩
    | none => simp [hp2] at h

/-- Concrete fallback reply for the C8 witness: three selections, K = 2. -/
def fbReplyW : Str := ("\x7b\"selected\": [1, 2, 3]\x7d").toList

/-- The truncated object the fallback run produces on `fbReplyW`. -/
def fbObjW : JVal :=
  .jobj [(kSelected, .jlist [.jint 1, .jint 2, .jint 3]),
         (kSelected, .jlist [.jint 1, .jint 2])]

/-- Witness for C8 at a concrete over-producing reply. -/
theorem fallback_selection_truncation_witness :
    ∃ obj0 ys,
      (safe_json_loads jsonLoads (pyStrip ((fun _ => fbReplyW) (("P").toList))) = some obj0 ∨
       safe_json_loads jsonLoads ((fun _ => fbReplyW)
         (fbFixPrompt (pyStrip ((fun _ => fbReplyW) (("P").toList))) 2)) = some obj0)
      ∧ pyGetD obj0 kSelected (.jlist []) = .ok (.jlist ys)
      ∧ fbObjW = dictSet obj0 kSelected (.jlist (ys.take 2))
      ∧ jvalGetObj fbObjW kSelected = some (.jlist (ys.take 2))
      ∧ (ys.take 2).length ≤ 2 :=
  fallback_selection_truncation jsonLoads (fun _ => fbReplyW) (("P").toList) 2 fbObjW rfl

/-- C3: when the first selection reply fails to parse, exactly one repair
call is made, its prompt contains the malformed (stripped) reply verbatim
as a suffix, and if the repair reply also fails to parse the stage
propagates the parse error after exactly those two model calls. -/
theorem grounded_selector_repair_bound (p : Str → Option JVal) (oracle : Str → Str)
    (prompt0 : Str)
    (hfail : safe_json_loads p (pyStrip (oracle prompt0)) = none) :
    (openai_select_from_facts p oracle prompt0).2 =
      [prompt0, selFixPrompt (pyStrip (oracle prompt0))]
    ∧ pyStrip (oracle prompt0) <:+ selFixPrompt (pyStrip (oracle prompt0))
    ∧ (safe_json_loads p (oracle (selFixPrompt (pyStrip (oracle prompt0)))) = none →
        (openai_select_from_facts p oracle prompt0).1 = .error .jsonDecodeError) := by
  refine ⟨?_, text_suffix_selFixPrompt (pyStrip_idem _), fun h2 => ?_⟩
  · cases h2 : safe_json_loads p (oracle (selFixPrompt (pyStrip (oracle prompt0)))) with
    | none => simp [openai_select_from_facts, hfail, h2]
    | some obj => simp [openai_select_from_facts, hfail, h2]
  · simp [openai_select_from_facts, hfail, h2]

/-- A parser that always fails, for parse-failure scenarios. -/
def noneP : Str → Option JVal := fun _ => none

/-- Witness for C3 with a parser that rejects everything. -/
theorem grounded_selector_repair_bound_witness :
    (openai_select_from_facts noneP (fun _ => ("x").toList) (("P").toList)).2 =
      [("P").toList, selFixPrompt (pyStrip ((fun _ => ("x").toList) (("P").toList)))]
    ∧ pyStrip ((fun _ => ("x").toList) (("P").toList)) <:+
        selFixPrompt (pyStrip ((fun _ => ("x").toList) (("P").toList)))
    ∧ (safe_json_loads noneP ((fun _ => ("x").toList)
          (selFixPrompt (pyStrip ((fun _ => ("x").toList) (("P").toList))))) = none →
        (openai_select_from_facts noneP (fun _ => ("x").toList) (("P").toList)).1 =
          .error .jsonDecodeError) :=
  grounded_selector_repair_bound noneP (fun _ => ("x").toList) (("P").toList) rfl

/-- C6: if the fact resolver yields zero facts, the grounded pipeline raises
the no-grounded-matches `ValueError`, whose message is the user-facing
remediation hint, and no selection-stage model call is ever made. -/
theorem empty_factset_aborts_before_selection (p : Str → Option JVal)
    (oracle : Str → Str) (cat : Catalog) (uplats : List Str) (candPrompt : Str)
    (mkSelPrompt : List Dict → Str) (cands : List Str) (Q : List Str)
    (hcand : openai_get_candidates p (oracle candPrompt) CANDIDATE_COUNT = .ok cands)
    (hres : resolveFacts cat uplats cands = .ok ([], Q)) :
    runGrounded p oracle cat uplats candPrompt mkSelPrompt =
      (.error (.valueError noMatchMsg), [.candCall candPrompt])
    ∧ ∀ sp, StageCall.selCall sp ∉
        (runGrounded p oracle cat uplats candPrompt mkSelPrompt).2 := by
  have h1 : runGrounded p oracle cat uplats candPrompt mkSelPrompt =
      (.error (.valueError noMatchMsg), [.candCall candPrompt]) := by
    simp [runGrounded, hcand, hres]
  refine ⟨h1, fun sp => ?_⟩
  rw [h1]
  simp

/-- An 18-candidate reply for the C6 witness. -/
def cand18Reply : Str :=
  ("\x7b\"candidates\": [\"g01\", \"g02\", \"g03\", \"g04\", \"g05\", \"g06\", \"g07\", \"g08\", \"g09\", \"g10\", \"g11\", \"g12\", \"g13\", \"g14\", \"g15\", \"g16\", \"g17\", \"g18\"]\x7d").toList

/-- The candidate list the reply parses to. -/
def cand18 : List Str :=
  [("g01").toList, ("g02").toList, ("g03").toList, ("g04").toList, ("g05").toList,
   ("g06").toList, ("g07").toList, ("g08").toList, ("g09").toList, ("g10").toList,
   ("g11").toList, ("g12").toList, ("g13").toList, ("g14").toList, ("g15").toList,
   ("g16").toList, ("g17").toList, ("g18").toList]

/-- A catalog whose search always returns zero results. -/
def emptyCat : Catalog :=
  { search := fun _ => .ok (.jobj [(("results").toList, .jlist [])]),
    detail := fun _ => .error .requestError }

set_option maxRecDepth 10000 in
/-- Witness for C6: a full grounded run in which no candidate resolves. -/
theorem empty_factset_aborts_before_selection_witness :
    runGrounded jsonLoads (fun _ => cand18Reply) emptyCat [] (("C").toList)
        (fun _ => ("S").toList) =
      (.error (.valueError noMatchMsg), [.candCall (("C").toList)])
    ∧ ∀ sp, StageCall.selCall sp ∉
        (runGrounded jsonLoads (fun _ => cand18Reply) emptyCat [] (("C").toList)
          (fun _ => ("S").toList)).2 :=
  empty_factset_aborts_before_selection jsonLoads (fun _ => cand18Reply) emptyCat []
    (("C").toList) (fun _ => ("S").toList) cand18 cand18 rfl rfl

/-- A catalog whose search finds a hit for the first title but whose detail
endpoint fails. -/
def failingDetailCat : Catalog :=
  { search := fun q =>
      if q = ("t1").toList then
        .ok (.jobj [(("results").toList, .jlist [.jobj [(idKey, .jint 1)]])])
      else
        .ok (.jobj [(("results").toList, .jlist [])]),
    detail := fun _ => .error .requestError }

/-- C4 counterexample: a failure of the per-candidate catalog detail fetch
is NOT swallowed — the resolver run aborts with the error instead of
skipping the candidate and continuing with the remaining ones. -/
theorem fact_resolver_detail_failure_aborts :
    resolveFacts failingDetailCat [] [("t1").toList, ("t2").toList] =
      .error .requestError
    ∧ ¬ ∃ F Q, resolveFacts failingDetailCat [] [("t1").toList, ("t2").toList] =
        .ok (F, Q) := by
  refine ⟨rfl, ?_⟩
  rintro ⟨F, Q, hFQ⟩
  have h0 : resolveFacts failingDetailCat [] [("t1").toList, ("t2").toList] =
      .error .requestError := rfl
  rw [h0] at hFQ
  exact absurd hFQ (by simp)

/-- C4 as amended: during fact resolution, a search miss (or falsy hit or
falsy id) and a platform mismatch are swallowed — the candidate is skipped
and the loop continues — but a failing per-candidate catalog detail fetch
propagates and aborts the resolution. -/
theorem fact_resolver_local_skip_policy (cat : Catalog) (up : List Str) (M : Nat)
    (t : Str) (rest : List Str) (factual : List Dict) (seen : List Int)
    (queried : List Str) :
    (candIdOf cat t = .ok none →
      resolveGo cat up M (t :: rest) factual seen queried =
        resolveGo cat up M rest factual seen (queried ++ [t]))
    ∧ (∀ gid top, candIdOf cat t = .ok (some (gid, top)) → gid ∉ seen →
        candDetail cat up gid top t = .ok none →
        resolveGo cat up M (t :: rest) factual seen queried =
          resolveGo cat up M rest factual seen (queried ++ [t]))
    ∧ (∀ gid top e, candIdOf cat t = .ok (some (gid, top)) → gid ∉ seen →
        cat.detail gid = .error e →
        resolveGo cat up M (t :: rest) factual seen queried = .error e) := by
  refine ⟨fun h1 => ?_, fun gid top h1 h2 h3 => ?_, fun gid top e h1 h2 h3 => ?_⟩
  · simp [resolveGo, h1]
  · simp only [resolveGo, h1]
    rw [if_neg h2]
    simp [h3]
  · simp only [resolveGo, h1]
    rw [if_neg h2]
    simp [candDetail, h3]

/-- A catalog for the C4 amended witness: `t1` misses, `t2` resolves to a
platform-mismatching game, `t3` resolves to a game with a failing detail
fetch. -/
def mixedCat : Catalog :=
  { search := fun q =>
      if q = ("t2").toList then
        .ok (.jobj [(("results").toList, .jlist [.jobj [(idKey, .jint 2)]])])
      else if q = ("t3").toList then
        .ok (.jobj [(("results").toList, .jlist [.jobj [(idKey, .jint 3)]])])
      else
        .ok (.jobj [(("results").toList, .jlist [])]),
    detail := fun g =>
      if g = 2 then
        .ok (.jobj [(kPlatforms,
          .jlist [.jobj [(("platform").toList, .jobj [(kName, .jstr (("PC").toList))])]])])
      else .error .requestError }

/-- Witness for the amended C4: all three policies at concrete inputs. -/
theorem fact_resolver_local_skip_policy_witness :
    (resolveGo mixedCat [("PS").toList] 18 [("t1").toList] [] [] [] =
      resolveGo mixedCat [("PS").toList] 18 [] [] [] ([] ++ [("t1").toList]))
    ∧ (resolveGo mixedCat [("PS").toList] 18 [("t2").toList] [] [] [] =
      resolveGo mixedCat [("PS").toList] 18 [] [] [] ([] ++ [("t2").toList]))
    ∧ (resolveGo mixedCat [("PS").toList] 18 [("t3").toList] [] [] [] =
      .error .requestError) :=
  ⟨(fact_resolver_local_skip_policy mixedCat [("PS").toList] 18 (("t1").toList)
      [] [] [] []).1 rfl,
   (fact_resolver_local_skip_policy mixedCat [("PS").toList] 18 (("t2").toList)
      [] [] [] []).2.1 2 (.jobj [(idKey, .jint 2)]) rfl (by simp) rfl,
   (fact_resolver_local_skip_policy mixedCat [("PS").toList] 18 (("t3").toList)
      [] [] [] []).2.2 3 (.jobj [(idKey, .jint 3)]) .requestError rfl (by simp) rfl⟩

/-- C2: a successful Fact Resolver run returns exactly the per-candidate
results in candidate order, deduplicated by catalog id first-occurrence-wins
and cut at the configured ceiling; hence its length is at most the ceiling,
every fact carries an integer id and no two facts share one, the searched
candidates form a prefix of the candidate list, and once the ceiling is
reached appending further candidates changes nothing (they are never
queried). -/
theorem fact_resolver_invariants (cat : Catalog) (up : List Str) (cands : List Str)
    (F : List Dict) (Q : List Str)
    (h : resolveFacts cat up cands = .ok (F, Q)) :
    F = ((dedupFst [] (cands.filterMap (candFact? cat up))).take RAWG_MATCH_LIMIT).map
        Prod.snd
    ∧ F.length ≤ RAWG_MATCH_LIMIT
    ∧ (F.filterMap (fun g => (dictGet g idKey).bind jIntOf)).length = F.length
    ∧ (F.filterMap (fun g => (dictGet g idKey).bind jIntOf)).Nodup
    ∧ Q <+: cands
    ∧ (RAWG_MATCH_LIMIT ≤ F.length → ∀ extra,
        resolveFacts cat up (cands ++ extra) = .ok (F, Q)) := by
  have hchar0 := resolveGo_ok_char cat up RAWG_MATCH_LIMIT cands [] [] [] F Q h
    (by simp) (by simp [RAWG_MATCH_LIMIT])
  have hchar : F = ((dedupFst [] (cands.filterMap (candFact? cat up))).take
      RAWG_MATCH_LIMIT).map Prod.snd := by simpa using hchar0
  have hpairs : ∀ q ∈ (dedupFst [] (cands.filterMap (candFact? cat up))).take
      RAWG_MATCH_LIMIT, dictGet q.2 idKey = some (.jint q.1) := by
    intro q hq
    obtain ⟨t, ht, hcf⟩ := List.mem_filterMap.mp
      (mem_of_mem_dedupFst (List.mem_of_mem_take hq))
    obtain ⟨g, d⟩ := q
    exact candFact?_id hcf
  have hmap : F.filterMap (fun g => (dictGet g idKey).bind jIntOf) =
      ((dedupFst [] (cands.filterMap (candFact? cat up))).take RAWG_MATCH_LIMIT).map
        Prod.fst := by
    rw [hchar, List.filterMap_map]
    exact filterMap_eq_map_of_forall (fun q hq => by
      show (dictGet q.2 idKey).bind jIntOf = some q.1
      rw [hpairs q hq]
      rfl)
  refine ⟨hchar, ?_, ?_, ?_, ?_, ?_⟩
  · rw [hchar, List.length_map]
    exact List.length_take_le _ _
  · rw [hmap, hchar]
    simp
  · rw [hmap, List.map_take]
    exact List.Nodup.sublist (List.take_sublist _ _) ((dedupFst_fst_nodup _ []).1)
  · obtain ⟨k, hk⟩ := resolveGo_queried cat up RAWG_MATCH_LIMIT cands [] [] [] F Q h
    rw [hk]
    simpa using List.take_prefix k cands
  · intro hge extra
    exact resolveGo_extend cat up RAWG_MATCH_LIMIT cands [] [] [] F Q extra h
      (by simp [RAWG_MATCH_LIMIT]) hge

/-- A two-entry catalog for the C2 witness: `w1` resolves to id 1, `w2`
misses. -/
def twoCat : Catalog :=
  { search := fun q =>
      if q = ("w1").toList then
        .ok (.jobj [(("results").toList, .jlist [.jobj [(idKey, .jint 1)]])])
      else
        .ok (.jobj [(("results").toList, .jlist [])]),
    detail := fun g =>
      if g = 1 then .ok (.jobj []) else .error .requestError }

/-- The fact `w1` resolves to under `twoCat`. -/
def factW1 : Dict :=
  [(idKey, .jint 1), (kName, .jstr (("w1").toList)), (kReleased, .jnull),
   (kGenres, .jlist []), (kPlatforms, .jlist []), (kMetacritic, .jnull),
   (kRating, .jnull), (kBgImage, .jnull)]

/-- Witness for C2 at a concrete resolver run. -/
theorem fact_resolver_invariants_witness :
    [factW1] = ((dedupFst [] ([("w1").toList, ("w2").toList].filterMap
        (candFact? twoCat []))).take RAWG_MATCH_LIMIT).map Prod.snd
    ∧ ([factW1] : List Dict).length ≤ RAWG_MATCH_LIMIT
    ∧ (([factW1] : List Dict).filterMap
        (fun g => (dictGet g idKey).bind jIntOf)).length = ([factW1] : List Dict).length
    ∧ (([factW1] : List Dict).filterMap (fun g => (dictGet g idKey).bind jIntOf)).Nodup
    ∧ [("w1").toList, ("w2").toList] <+: [("w1").toList, ("w2").toList]
    ∧ (RAWG_MATCH_LIMIT ≤ ([factW1] : List Dict).length → ∀ extra,
        resolveFacts twoCat [] ([("w1").toList, ("w2").toList] ++ extra) =
          .ok ([factW1], [("w1").toList, ("w2").toList])) :=
  fact_resolver_invariants twoCat [] [("w1").toList, ("w2").toList] [factW1]
    [("w1").toList, ("w2").toList] rfl

/-! ## Helper lemmas: code fences -/

theorem stripLeft_fence_append (X : Str) : stripLeft (fence3 ++ X) = fence3 ++ X := rfl

theorem isPrefixB_fence_append (X : Str) : isPrefixB fence3 (fence3 ++ X) = true := rfl

theorem pyStrip_fenced (lang bodyTail : Str) :
    pyStrip (fence3 ++ (lang ++ ('\n' :: (bodyTail ++ ('\n' :: fence3))))) =
      fence3 ++ (lang ++ ('\n' :: (bodyTail ++ ('\n' :: fence3)))) := by
  have h1 : stripLeft (fence3 ++ (lang ++ ('\n' :: (bodyTail ++ ('\n' :: fence3))))) =
      fence3 ++ (lang ++ ('\n' :: (bodyTail ++ ('\n' :: fence3)))) :=
    stripLeft_fence_append _
  have hassoc : fence3 ++ (lang ++ ('\n' :: (bodyTail ++ ('\n' :: fence3)))) =
      (fence3 ++ (lang ++ ('\n' :: (bodyTail ++ ['\n'])))) ++ fence3 := by
    simp [List.append_assoc]
  rw [pyStrip, h1, hassoc]
  exact stripRight_append_stripped (by decide) (by decide)

theorem stripFenceHead_fenced (lang bodyTail : Str)
    (ha : ∀ c ∈ lang, (c.isAlpha && c.toNat < 128) = true) :
    stripFenceHead (fence3 ++ (lang ++ ('\n' :: bodyTail))) = bodyTail := by
  unfold stripFenceHead
  rw [if_pos (isPrefixB_fence_append _)]
  have h1 : (fence3 ++ (lang ++ ('\n' :: bodyTail))).drop 3 = lang ++ ('\n' :: bodyTail) :=
    rfl
  rw [h1, List.dropWhile_append_of_pos ha]
  rfl

theorem stripFenceTail_fenced (body : Str) :
    stripFenceTail (body ++ ('\n' :: fence3)) = body := by
  unfold stripFenceTail
  have hrev : (body ++ ('\n' :: fence3)).reverse = fence3 ++ ('\n' :: body.reverse) := by
    rw [List.reverse_append, List.reverse_cons,
      show fence3.reverse = fence3 from by decide, List.append_assoc]
    rfl
  rw [hrev, if_pos (isPrefixB_fence_append _)]
  have hd : (fence3 ++ ('\n' :: body.reverse)).drop 3 = '\n' :: body.reverse := rfl
  rw [hd]
  simp

/-- C10: the JSON parsing used after every model call is more lenient than
strict JSON. (a) A reply wrapped in a markdown code fence is parsed as its
fence-stripped content. (b) When the (preprocessed) reply contains both
braces, the brace-delimited slice is tried first, and only on its failure
the whole string. (c) The overall parse fails only when both attempts fail
on the preprocessed text. -/
theorem safe_json_loads_leniency :
    (∀ (p : Str → Option JVal) (lang body : Str),
        (∀ c ∈ lang, (c.isAlpha && c.toNat < 128) = true) →
        pyStrip body = body → body ≠ [] → isPrefixB fence3 body = false →
        safe_json_loads p (fence3 ++ (lang ++ ('\n' :: (body ++ ('\n' :: fence3))))) =
          safe_json_loads p body)
    ∧ (∀ (p : Str → Option JVal) (s : Str),
        Char.ofNat 123 ∈ s → Char.ofNat 125 ∈ s →
        (∀ j, p (braceSlice s) = some j → sjCore p s = some j)
        ∧ (p (braceSlice s) = none → sjCore p s = p s))
    ∧ (∀ (p : Str → Option JVal) (s : Str), safe_json_loads p s = none →
        p (sjPreprocess s) = none
        ∧ (Char.ofNat 123 ∈ sjPreprocess s → Char.ofNat 125 ∈ sjPreprocess s →
            p (braceSlice (sjPreprocess s)) = none)) := by
  refine ⟨?_, ?_, ?_⟩
  · intro p lang body ha hb hne hnf
    obtain ⟨c, bt, rfl⟩ : ∃ c bt, body = c :: bt := by
      cases body with
      | nil => exact absurd rfl hne
      | cons c bt => exact ⟨c, bt, rfl⟩
    have hc : isPySpace c = false :=
      dropWhile_fix_head (stripLeft_eq_of_pyStrip hb)
    have e1 := pyStrip_fenced lang (c :: bt)
    have e3 := stripFenceHead_fenced lang ((c :: bt) ++ ('\n' :: fence3)) ha
    have e4 : pyStrip ((c :: bt) ++ ('\n' :: fence3)) = (c :: bt) ++ ('\n' :: fence3) := by
      have h1 : stripLeft ((c :: bt) ++ ('\n' :: fence3)) = (c :: bt) ++ ('\n' :: fence3) := by
        simp [stripLeft, List.dropWhile_cons, hc]
      have hassoc : (c :: bt) ++ ('\n' :: fence3) = ((c :: bt) ++ ['\n']) ++ fence3 := by
        simp [List.append_assoc]
      rw [pyStrip, h1, hassoc]
      exact stripRight_append_stripped (by decide) (by decide)
    have e5 := stripFenceTail_fenced (c :: bt)
    have e6 : sjPreprocess (fence3 ++ (lang ++ ('\n' :: ((c :: bt) ++ ('\n' :: fence3))))) =
        c :: bt := by
      unfold sjPreprocess
      rw [e1, if_pos (isPrefixB_fence_append _), e3, e4, e5, hb]
    have e7 : sjPreprocess (c :: bt) = c :: bt := by
      unfold sjPreprocess
      rw [hb, if_neg (by simp [hnf])]
    unfold safe_json_loads
    rw [e6, e7]
  · intro p s h1 h2
    unfold sjCore
    rw [if_pos ⟨h1, h2⟩]
    refine ⟨fun j hj => by rw [hj], fun hn => by rw [hn]⟩
  · intro p s h
    unfold safe_json_loads sjCore at h
    by_cases hbr : Char.ofNat 123 ∈ sjPreprocess s ∧ Char.ofNat 125 ∈ sjPreprocess s
    · rw [if_pos hbr] at h
      cases hps : p (braceSlice (sjPreprocess s)) with
      | some j => rw [hps] at h; simp at h
      | none =>
        rw [hps] at h
        simp only at h
        exact ⟨h, fun _ _ => rfl⟩
    · rw [if_neg hbr] at h
      exact ⟨h, fun hx hy => absurd ⟨hx, hy⟩ hbr⟩

/-- Witness for C10: a fenced JSON object, a noisy reply whose brace slice
parses, and a parser that always fails. -/
theorem safe_json_loads_leniency_witness :
    safe_json_loads jsonLoads
        (fence3 ++ ((("json").toList) ++ ('\n' :: ((("\x7b\"a\": 1\x7d").toList) ++
          ('\n' :: fence3))))) =
      safe_json_loads jsonLoads (("\x7b\"a\": 1\x7d").toList)
    ∧ sjCore jsonLoads (("noise \x7b\"a\": 1\x7d trailing").toList) =
        some (.jobj [(("a").toList, .jint 1)])
    ∧ noneP (sjPreprocess (("whatever").toList)) = none :=
  ⟨safe_json_loads_leniency.1 jsonLoads (("json").toList) (("\x7b\"a\": 1\x7d").toList)
      (by decide) (by decide) (by decide) (by decide),
   (safe_json_loads_leniency.2.1 jsonLoads (("noise \x7b\"a\": 1\x7d trailing").toList)
      (by decide) (by decide)).1 (.jobj [(("a").toList, .jint 1)]) rfl,
   (safe_json_loads_leniency.2.2 noneP (("whatever").toList) rfl).1⟩
